import Mathlib

/-!
Verification development for the gitobi repository: a shallow embedding in
Lean 4 of the typed value model (src/number.rs, src/query_literal.rs,
src/query_term.rs), the query algebra (src/repo_query.rs), the JSON document
engine (src/repo_document.rs) and the repository store (src/repo_store.rs),
together with theorems settling the frozen claims about the specification.

Modelling conventions:
- Rust u64/i64/... become Nat/Int; the fallible conversions carry the exact
  range checks the source performs, so overflow behavior is preserved.
- f64 is modelled as an inductive with NaN, signed infinities, and finite
  values carried by a rational; the source never performs float arithmetic
  (it only stores, classifies and compares), so IEEE equality and the IEEE
  partial order on this carrier model the operations the source uses.
- serde_json Value is modelled by an inductive Json whose objects are
  association lists; serde maps have unique keys, so key removal is modelled
  by removing every binding of the key (on unique-key lists this agrees with
  the map removal the source performs).
- File and subprocess I/O is modelled by explicit environments recording the
  outcome of each external call; operations return an outcome that is a
  success, a typed error, or a panic (for source paths that call unwrap on
  data-dependent results).
-/

namespace Gitobi

/-- Model of an f64 value: NaN, an infinity (negative when the flag is set),
or a finite value carried by a rational. Finite doubles are a subset of the
rationals and the source only stores and compares them, so this carrier is
adequate for every operation the source performs. -/
inductive F64 where
  | nan : F64
  | infinity (neg : Bool) : F64
  | finite (v : Rat) : F64
deriving DecidableEq

/-- Model of f64::is_finite. -/
def F64.isFinite : F64 → Bool
  | .finite _ => true
  | _ => false

/-- IEEE equality on doubles: NaN equals nothing (itself included). -/
def F64.ieeeEq : F64 → F64 → Bool
  | .finite a, .finite b => a == b
  | .infinity a, .infinity b => a == b
  | _, _ => false

/-- IEEE partial order on doubles: none exactly when one side is NaN. -/
def F64.pcmp : F64 → F64 → Option Ordering
  | .nan, _ => none
  | _, .nan => none
  | .infinity true, .infinity true => some .eq
  | .infinity true, _ => some .lt
  | .infinity false, .infinity false => some .eq
  | .infinity false, _ => some .gt
  | .finite _, .infinity true => some .gt
  | .finite _, .infinity false => some .lt
  | .finite a, .finite b => some (compare a b)

/-- IEEE strict less-than, as Rust f64 PartialOrd computes it. -/
def F64.ieeeLt (a b : F64) : Bool := a.pcmp b == some .lt

/-- f32 values are modelled on the same carrier; the Rust cast f32-as-f64 is
exact and maps finite values to finite values, so it is the identity here. -/
def F32 := F64

def F32.isFinite (f : F32) : Bool := F64.isFinite f

def F32.toF64 (f : F32) : F64 := f

/-- Embeds enum NumericTerm of src/number.rs: PosInt(u64), NegInt(i64)
(documented always `< 0`), Float(f64) (documented always finite). The
payloads are raw Nat/Int/F64; the documented invariants are proved of the
constructors, not assumed. -/
inductive NumericTerm where
  | PosInt (u : Nat) : NumericTerm
  | NegInt (i : Int) : NumericTerm
  | Float (f : F64) : NumericTerm
deriving DecidableEq

/-- Embeds the manual `impl PartialEq for NumericTerm`: same variant compares
payloads, different variants are never equal. -/
def NumericTerm.rustEq : NumericTerm → NumericTerm → Bool
  | .PosInt a, .PosInt b => a == b
  | .NegInt a, .NegInt b => a == b
  | .Float a, .Float b => a.ieeeEq b
  | _, _ => false

/-- Embeds `lt` of the manual `impl PartialOrd for NumericTerm`: strict
comparison within a variant, false across variants. -/
def NumericTerm.rustLt : NumericTerm → NumericTerm → Bool
  | .PosInt a, .PosInt b => a < b
  | .NegInt a, .NegInt b => a < b
  | .Float a, .Float b => a.ieeeLt b
  | _, _ => false

/-- Embeds `gt` of the manual `impl PartialOrd for NumericTerm` (defined in
the source as the mirrored strict comparison). -/
def NumericTerm.rustGt (a b : NumericTerm) : Bool := NumericTerm.rustLt b a

/-- Embeds `partial_cmp` of the manual `impl PartialOrd for NumericTerm`:
Less if `self < other`, else Greater if `self > other`, else Equal if
`self == other`, else None. -/
def NumericTerm.pcmp (a b : NumericTerm) : Option Ordering :=
  if a.rustLt b then some .lt
  else if a.rustGt b then some .gt
  else if a.rustEq b then some .eq
  else none

/-- Embeds struct Number of src/number.rs, wrapping a NumericTerm. -/
structure Number where
  n : NumericTerm
deriving DecidableEq

/-- Derived PartialEq of struct Number delegates to the single field. -/
def Number.rustEq (a b : Number) : Bool := a.n.rustEq b.n

/-- Derived PartialOrd of struct Number delegates partial_cmp to the field. -/
def Number.pcmp (a b : Number) : Option Ordering := a.n.pcmp b.n

/-- Embeds Number::as_f64: every variant converts; integer payloads convert
through the exact rational embedding (the source performs `as f64` casts,
exact for every value these theorems instantiate and irrelevant to the
claims, which only consult the Float variant). -/
def Number.as_f64 (x : Number) : Option F64 :=
  match x.n with
  | .PosInt u => some (.finite (u : Rat))
  | .NegInt i => some (.finite (i : Rat))
  | .Float f => some f

/-- Embeds Number::from_f64: finite floats are stored unchanged, non-finite
inputs yield None. -/
def Number.from_f64 (f : F64) : Option Number :=
  if f.isFinite then some ⟨.Float f⟩ else none

/-- Embeds Number::from_f32: finite inputs are widened with `as f64` (exact)
and stored, non-finite inputs yield None. -/
def Number.from_f32 (f : F32) : Option Number :=
  if f.isFinite then some ⟨.Float f.toF64⟩ else none

/-- Embeds Number::from_i128: try u64::try_from first (success exactly on
[0, 2^64)), then i64::try_from (success exactly on [-2^63, 2^63)), else
None. -/
def Number.from_i128 (i : Int) : Option Number :=
  if 0 ≤ i ∧ i < 2 ^ 64 then some ⟨.PosInt i.toNat⟩
  else if -(2 ^ 63) ≤ i ∧ i < 2 ^ 63 then some ⟨.NegInt i⟩
  else none

/-- Embeds Number::from_u128: u64::try_from succeeds exactly below 2^64. -/
def Number.from_u128 (u : Nat) : Option Number :=
  if u < 2 ^ 64 then some ⟨.PosInt u⟩ else none

/-- The representation invariant documented on NumericTerm: NegInt is always
strictly negative and Float is always finite. -/
def NumberInv (x : Number) : Prop :=
  match x.n with
  | .PosInt _ => True
  | .NegInt i => i < 0
  | .Float f => f.isFinite = true

/-- Alias for the prelude Bool, usable inside an inductive that declares a
constructor named Bool. -/
abbrev BoolT := Bool

/-- Alias for Gitobi.Number, usable inside an inductive that declares a
constructor named Number. -/
abbrev NumberT := Number

/-- Alias for the prelude String, usable inside an inductive that declares a
constructor named String. -/
abbrev StringT := String

/-- Embeds enum QueryLiteral of src/query_literal.rs, in source declaration
order (the derived PartialOrd orders variants by this declaration order). -/
inductive QueryLiteral where
  | Null : QueryLiteral
  | Bool (b : BoolT) : QueryLiteral
  | Number (x : NumberT) : QueryLiteral
  | String (s : StringT) : QueryLiteral
deriving DecidableEq

/-- Discriminant position of a QueryLiteral variant in declaration order. -/
def QueryLiteral.disc : QueryLiteral → Nat
  | .Null => 0
  | .Bool _ => 1
  | .Number _ => 2
  | .String _ => 3

/-- Derived PartialEq of QueryLiteral: same variant and equal payloads.
(BoolT: inside the QueryLiteral namespace the name Bool denotes the
constructor.) -/
def QueryLiteral.rustEq : QueryLiteral → QueryLiteral → BoolT
  | .Null, .Null => true
  | .Bool a, .Bool b => a == b
  | .Number a, .Number b => a.rustEq b
  | .String a, .String b => a == b
  | _, _ => false

/-- Derived PartialOrd of QueryLiteral: equal variants compare payloads,
different variants compare by declaration order (always Some). -/
def QueryLiteral.pcmp (a b : QueryLiteral) : Option Ordering :=
  match a, b with
  | .Null, .Null => some .eq
  | .Bool x, .Bool y => some (compare x y)
  | .Number x, .Number y => x.pcmp y
  | .String x, .String y => some (compare x y)
  | _, _ => some (compare a.disc b.disc)

/-- Embeds enum QueryTerm of src/query_term.rs: a bare literal or a
field-named literal, in source declaration order. -/
inductive QueryTerm where
  | Literal (l : QueryLiteral) : QueryTerm
  | Field (name : String) (l : QueryLiteral) : QueryTerm
deriving DecidableEq

/-- Derived PartialEq of QueryTerm. -/
def QueryTerm.rustEq : QueryTerm → QueryTerm → Bool
  | .Literal a, .Literal b => a.rustEq b
  | .Field n1 a, .Field n2 b => n1 == n2 && a.rustEq b
  | _, _ => false

/-- Derived PartialOrd of QueryTerm: Literal before Field by declaration
order; Field compares the name first, then the literal. -/
def QueryTerm.pcmp : QueryTerm → QueryTerm → Option Ordering
  | .Literal a, .Literal b => a.pcmp b
  | .Field n1 a, .Field n2 b =>
      match compare n1 n2 with
      | .eq => a.pcmp b
      | o => some o
  | .Literal _, .Field _ _ => some .lt
  | .Field _ _, .Literal _ => some .gt

/-- Rust default PartialOrd::gt derived from partial_cmp. -/
def QueryTerm.rustGt (a b : QueryTerm) : Bool := a.pcmp b == some .gt

/-- Rust default PartialOrd::lt derived from partial_cmp. -/
def QueryTerm.rustLt (a b : QueryTerm) : Bool := a.pcmp b == some .lt

/-- Rust default PartialOrd::ge derived from partial_cmp. -/
def QueryTerm.rustGe (a b : QueryTerm) : Bool :=
  a.pcmp b == some .gt || a.pcmp b == some .eq

/-- Rust default PartialOrd::le derived from partial_cmp. -/
def QueryTerm.rustLe (a b : QueryTerm) : Bool :=
  a.pcmp b == some .lt || a.pcmp b == some .eq

/-- Embeds enum List of src/repo_query.rs (a cons list of selected column
names); named QList because List is taken by the Lean prelude. -/
inductive QList where
  | Cons (s : String) (rest : QList) : QList
  | Nil : QList

/-- Embeds enum Clause of src/repo_query.rs at its one instantiation
T = QueryTerm (the bound `T: PartialEq + PartialOrd` resolved to the derived
instances of QueryTerm). -/
inductive Clause where
  | Eq (a b : QueryTerm) : Clause
  | Ne (a b : QueryTerm) : Clause
  | Ge (a b : QueryTerm) : Clause
  | Gt (a b : QueryTerm) : Clause
  | Le (a b : QueryTerm) : Clause
  | Lt (a b : QueryTerm) : Clause
  | And (a b : Clause) : Clause
  | Or (a b : Clause) : Clause
  | Not (a : Clause) : Clause

/-- Embeds enum RepoQuery of src/repo_query.rs. -/
inductive RepoQuery where
  | Select (l : QList) : RepoQuery
  | Where (c : Clause) : RepoQuery

/-- Embeds RepoQuery::evaluate of src/repo_query.rs (written in the source as
a match over the Clause tree): comparisons use the operands' PartialEq and
PartialOrd, combinators use the boolean operations. -/
def Clause.evaluate : Clause → Bool
  | .Eq a b => a.rustEq b
  | .Ne a b => !(a.rustEq b)
  | .Ge a b => a.rustGe b
  | .Gt a b => a.rustGt b
  | .Le a b => a.rustLe b
  | .Lt a b => a.rustLt b
  | .And a b => a.evaluate && b.evaluate
  | .Or a b => a.evaluate || b.evaluate
  | .Not a => !a.evaluate

/-- Model of serde_json Value: objects are association lists of string keys
to values (serde maps have unique keys; list states with duplicate keys are
unreachable junk of the model). -/
inductive Json where
  | null : Json
  | bool (b : BoolT) : Json
  | num (x : NumberT) : Json
  | str (s : StringT) : Json
  | arr (items : List Json) : Json
  | obj (fields : List (StringT × Json)) : Json

/-- Model of Map::get: first binding of the key, if any. -/
def mapGet (m : List (String × Json)) (k : String) : Option Json :=
  match m with
  | [] => none
  | (k2, v) :: rest => if k2 = k then some v else mapGet rest k

/-- Model of assignment to an existing map entry (`build[key] = v` in the
source, reached only when the key is present): replaces the first binding of
the key, leaves a key-free map unchanged. -/
def mapSet (m : List (String × Json)) (k : String) (v : Json) :
    List (String × Json) :=
  match m with
  | [] => []
  | (k2, w) :: rest => if k2 = k then (k2, v) :: rest else (k2, w) :: mapSet rest k v

/-- Model of Map::insert: replace the binding when the key is present,
otherwise add a binding. -/
def mapInsert (m : List (String × Json)) (k : String) (v : Json) :
    List (String × Json) :=
  if (mapGet m k).isSome then mapSet m k v else m ++ [(k, v)]

/-- Model of Map::remove: drop the key's bindings (on the unique-key lists a
serde map produces, exactly the source's removal of the single binding). -/
def mapRemove (m : List (String × Json)) (k : String) : List (String × Json) :=
  match m with
  | [] => []
  | (k2, v) :: rest => if k2 = k then mapRemove rest k else (k2, v) :: mapRemove rest k

/-- Model of Rust str::split over one separator character, structurally
recursive (so concrete instances reduce): splitting never yields an empty
list and separators delimit possibly-empty chunks. -/
def splitChar (sep : Char) : List Char → List (List Char)
  | [] => [[]]
  | c :: rest =>
      if c = sep then [] :: splitChar sep rest
      else
        match splitChar sep rest with
        | [] => [[c]]
        | g :: gs => (c :: g) :: gs

/-- Embeds `key.split('.').collect()` of src/repo_document.rs. -/
def splitDots (key : String) : List String :=
  (splitChar '.' key.toList).map (fun cs => String.mk cs)

/-- Recursive core of update_json_value: the source walks the object with a
mutable reference, one segment per loop iteration; the rebuild after the
walk is expressed here as structural recursion over the segment list. At the
final segment the key is set (insert or overwrite); at a non-final segment
the walk descends into the present object, or into a fresh empty object that
replaces a non-object value or is inserted for an absent key. -/
def updateSegs (m : List (String × Json)) (segs : List String) (v : Json) :
    List (String × Json) :=
  match segs with
  | [] => m
  | [k] =>
      match mapGet m k with
      | some _ => mapSet m k v
      | none => mapInsert m k v
  | k :: rest =>
      match mapGet m k with
      | some (.obj inner) => mapSet m k (.obj (updateSegs inner rest v))
      | some _ => mapSet m k (.obj (updateSegs [] rest v))
      | none => mapInsert m k (.obj (updateSegs [] rest v))

/-- Embeds update_json_value of src/repo_document.rs: dotted-path upsert on
an object root, identity on any other root. -/
def update_json_value (data : Json) (key : String) (v : Json) : Json :=
  match data with
  | .obj m => .obj (updateSegs m (splitDots key) v)
  | _ => data

/-- Recursive core of delete_json_key: none models the source's early
`return data.clone()` (absent segment, or non-object value at a non-final
segment); some is the rebuilt object map with the final key removed. -/
def deleteSegs (m : List (String × Json)) (segs : List String) :
    Option (List (String × Json)) :=
  match segs with
  | [] => some m
  | [k] =>
      match mapGet m k with
      | some _ => some (mapRemove m k)
      | none => none
  | k :: rest =>
      match mapGet m k with
      | some (.obj inner) =>
          match deleteSegs inner rest with
          | some inner2 => some (mapSet m k (.obj inner2))
          | none => none
      | some _ => none
      | none => none

/-- Embeds delete_json_key of src/repo_document.rs: dotted-path removal that
aborts to the unchanged document when the walk cannot complete, identity on
a non-object root. -/
def delete_json_key (data : Json) (key : String) : Json :=
  match data with
  | .obj m =>
      match deleteSegs m (splitDots key) with
      | some m2 => .obj m2
      | none => data
  | _ => data

/-- Lookup of a segment path: descends through object fields; some exactly
when every non-final segment's value exists and is an object and the final
segment's key exists. -/
def getPath : Json → List String → Option Json
  | v, [] => some v
  | .obj m, k :: rest =>
      match mapGet m k with
      | some v => getPath v rest
      | none => none
  | _, _ :: _ => none

/-- True exactly on object roots (Value::is_object). -/
def Json.isObj : Json → Bool
  | .obj _ => true
  | _ => false

/-- Model of std::io::Error (and of subprocess wrap errors): an opaque
message. -/
structure IOErr where
  msg : String
deriving DecidableEq

/-- Embeds enum RepoDocumentErr of src/repo_document.rs: each kind wraps a
boxed cause, which in the source is either an io::Error (inl here) or a
nested RepoDocumentErr (inr here). -/
inductive RepoDocumentErr where
  | NotFound (cause : Sum IOErr RepoDocumentErr) : RepoDocumentErr
  | ReadError (cause : Sum IOErr RepoDocumentErr) : RepoDocumentErr
  | WriteError (cause : Sum IOErr RepoDocumentErr) : RepoDocumentErr
  | UpdateError (cause : Sum IOErr RepoDocumentErr) : RepoDocumentErr
  | DeleteError (cause : Sum IOErr RepoDocumentErr) : RepoDocumentErr
  | CreateError (cause : Sum IOErr RepoDocumentErr) : RepoDocumentErr
  | CopyError (cause : Sum IOErr RepoDocumentErr) : RepoDocumentErr
  | RemoveError (cause : Sum IOErr RepoDocumentErr) : RepoDocumentErr

/-- Outcome of a document-engine call: success, a typed error returned to
the caller, or a process panic (the source reaches a panic only through
unwrap on data-dependent results). -/
inductive DocOutcome (A : Type) where
  | ok (a : A) : DocOutcome A
  | err (e : RepoDocumentErr) : DocOutcome A
  | panicked : DocOutcome A

/-- Environment a JsonDocument call runs against: the outcome of reading the
file to a string, and the injected outcome of writing the file (none means
the write succeeds). The JSON parser is an external collaborator and is
passed explicitly to the operations that use it. -/
structure DocEnv where
  content : Except IOErr String
  writeResult : Option IOErr

/-- Embeds JsonDocument::find_one of src/repo_document.rs: the body ignores
the query and the file system and returns Ok(None). -/
def JsonDocument.find_one (env : DocEnv) (qry : RepoQuery) :
    DocOutcome (Option Json) :=
  .ok none

/-- Embeds JsonDocument::find_many of src/repo_document.rs: the body ignores
the query and the file system and returns Ok of an empty vector. -/
def JsonDocument.find_many (env : DocEnv) (qry : RepoQuery) :
    DocOutcome (List Json) :=
  .ok []

/-- Embeds JsonDocument::read of src/repo_document.rs: a failing
read_to_string is wrapped into ReadError; on success the parse result is
unwrapped, so an unparseable content panics. -/
def JsonDocument.read (parse : String → Option Json) (content : Except IOErr String) :
    DocOutcome Json :=
  match content with
  | .ok contents =>
      match parse contents with
      | some v => .ok v
      | none => .panicked
  | .error s => .err (.ReadError (.inl s))

/-- Embeds JsonDocument::write of src/repo_document.rs: serialization of a
Value cannot fail; a failing fs::write is wrapped into WriteError. -/
def JsonDocument.write (env : DocEnv) (data : Json) : DocOutcome Unit :=
  match env.writeResult with
  | none => .ok ()
  | some e => .err (.WriteError (.inl e))

/-- Embeds JsonDocument::delete of src/repo_document.rs: read, apply
delete_json_key, write back; both the read failure and the write failure are
wrapped into UpdateError (the source does not use DeleteError here). -/
def JsonDocument.delete (parse : String → Option Json) (env : DocEnv) (key : String) :
    DocOutcome Unit :=
  match JsonDocument.read parse env.content with
  | .ok data =>
      match JsonDocument.write env (delete_json_key data key) with
      | .ok _ => .ok ()
      | .err s => .err (.UpdateError (.inr s))
      | .panicked => .panicked
  | .err s => .err (.UpdateError (.inr s))
  | .panicked => .panicked

/-- Standard base64 alphabet. -/
def base64Chars : List Char :=
  "ABCDEFGHIJKLMNOPQRSTUVWXYZabcdefghijklmnopqrstuvwxyz0123456789+/".toList

/-- Character of the standard base64 alphabet at a 6-bit index. -/
def base64Digit (i : Nat) : Char := base64Chars.getD i 'A'

/-- Standard base64 of a byte list, with padding. -/
def base64EncodeBytes : List Nat → List Char
  | [] => []
  | [b1] =>
      [base64Digit (b1 / 4), base64Digit (b1 % 4 * 16), '=', '=']
  | [b1, b2] =>
      [base64Digit (b1 / 4), base64Digit (b1 % 4 * 16 + b2 / 16),
       base64Digit (b2 % 16 * 4), '=']
  | b1 :: b2 :: b3 :: rest =>
      base64Digit (b1 / 4) :: base64Digit (b1 % 4 * 16 + b2 / 16) ::
      base64Digit (b2 % 16 * 4 + b3 / 64) :: base64Digit (b3 % 64) ::
      base64EncodeBytes rest

/-- UTF-8 bytes of one scalar value. -/
def utf8Char (c : Char) : List Nat :=
  let n := c.toNat
  if n < 128 then [n]
  else if n < 2048 then [192 + n / 64, 128 + n % 64]
  else if n < 65536 then [224 + n / 4096, 128 + n / 64 % 64, 128 + n % 64]
  else [240 + n / 262144, 128 + n / 4096 % 64, 128 + n / 64 % 64, 128 + n % 64]

/-- UTF-8 byte sequence of a string (Rust String exposes exactly these
bytes). -/
def utf8Bytes (s : String) : List Nat :=
  (s.toList.map utf8Char).flatten

/-- Model of BASE64_STANDARD.encode over a string's UTF-8 bytes. -/
def base64Encode (s : String) : String :=
  String.mk (base64EncodeBytes (utf8Bytes s))

/-- Embeds struct GitAuth of src/repo_store.rs. -/
structure GitAuth where
  user : Option String
  password : Option String
  token : Option String
  insecure : Bool

/-- Embeds GitStore::build_auth_header of src/repo_store.rs: a configured
token yields the Bearer header exactly as the source formats it (the format
string carries two spaces after Bearer); otherwise user and password
together yield the Basic header with standard base64 of user:password;
otherwise no header. -/
def build_auth_header (auth : GitAuth) : Option String :=
  match auth.token with
  | some token => some ("Authorization: Bearer  " ++ token)
  | none =>
      match auth.user with
      | some user =>
          match auth.password with
          | some password =>
              some ("Authorization: Basic " ++ base64Encode (user ++ ":" ++ password))
          | none => none
      | none => none

/-- Embeds enum RepoStoreError of src/repo_store.rs: each phase wraps a
boxed cause, either an io/subprocess error (inl) or a nested store error
(inr, as when initialize wraps a clone failure). CloneE names the source's
Clone variant (Clone is taken by the Lean prelude). -/
inductive RepoStoreError where
  | InitializeE (cause : Sum IOErr RepoStoreError) : RepoStoreError
  | CloneE (cause : Sum IOErr RepoStoreError) : RepoStoreError
  | Pull (cause : Sum IOErr RepoStoreError) : RepoStoreError
  | Push (cause : Sum IOErr RepoStoreError) : RepoStoreError
  | Commit (cause : Sum IOErr RepoStoreError) : RepoStoreError
  | Clean (cause : Sum IOErr RepoStoreError) : RepoStoreError

/-- External actions GitStore::initialize can perform against the working
directory, in the order performed; an initialize run is summarized by its
action trace, so an empty trace is exactly a run that touched nothing. -/
inductive StoreAction where
  | removeDirAll : StoreAction
  | createDirAll : StoreAction
  | runClone : StoreAction
  | setConfig : StoreAction
deriving DecidableEq

/-- Environment a GitStore lifecycle call runs against: outcomes of the
external calls initialize may make (fs::exists, the rev-parse validity
probe's captured output, fs::remove_dir_all, fs::create_dir_all, the clone
subprocess, the config subprocess); none means the call succeeds. -/
structure StoreEnv where
  pathExists : Except IOErr Bool
  probeResult : Except IOErr String
  removeDirResult : Option IOErr
  createDirResult : Option IOErr
  cloneResult : Option IOErr
  configResult : Option IOErr

/-- Substring containment, as Rust str::contains over the probe output. -/
def strContains (hay needle : String) : Bool :=
  hay.toList.tails.any (fun t => needle.toList.isPrefixOf t)

/-- Embeds GitStore::is_valid_repo of src/repo_store.rs: the rev-parse
inside-work-tree probe is valid exactly when it succeeds and its output
contains "true"; any subprocess failure is invalid. -/
def is_valid_repo (env : StoreEnv) : Bool :=
  match env.probeResult with
  | .ok o => strContains o "true"
  | .error _ => false

/-- Embeds GitStore::clone of src/repo_store.rs: runs the clone subprocess
and wraps a failure into the Clone kind. -/
def GitStore.cloneRepo (env : StoreEnv) : List StoreAction × Except RepoStoreError Unit :=
  ([.runClone],
   match env.cloneResult with
   | none => .ok ()
   | some e => .error (.CloneE (.inl e)))

/-- Embeds GitStore::set_repo_config of src/repo_store.rs: runs the config
subprocess and wraps a failure into the Initialize kind. -/
def GitStore.set_repo_config (env : StoreEnv) : List StoreAction × Except RepoStoreError Unit :=
  ([.setConfig],
   match env.configResult with
   | none => .ok ()
   | some e => .error (.InitializeE (.inl e)))

/-- Embeds GitStore::create_dir_and_clone of src/repo_store.rs: create the
directory, clone (wrapping a clone failure into Initialize), then set the
commit-author configuration. -/
def GitStore.create_dir_and_clone (env : StoreEnv) :
    List StoreAction × Except RepoStoreError Unit :=
  match env.createDirResult with
  | none =>
      match GitStore.cloneRepo env with
      | (acts, .error e) => (.createDirAll :: acts, .error (.InitializeE (.inr e)))
      | (acts, .ok _) =>
          let (acts2, r) := GitStore.set_repo_config env
          (.createDirAll :: acts ++ acts2, r)
  | some e => ([.createDirAll], .error (.InitializeE (.inl e)))

/-- Embeds GitStore::initialize of src/repo_store.rs (the name carries a
Repo suffix for tooling reasons): an existing directory that passes the
validity probe returns Ok at once with no actions; an existing invalid
directory is removed recursively and recreated by create_dir_and_clone; an
absent directory goes straight to create_dir_and_clone; an fs::exists
failure is wrapped into Initialize. -/
def GitStore.initializeRepo (env : StoreEnv) :
    List StoreAction × Except RepoStoreError Unit :=
  match env.pathExists with
  | .ok true =>
      if is_valid_repo env then ([], .ok ())
      else
        match env.removeDirResult with
        | none =>
            match GitStore.create_dir_and_clone env with
            | (acts, r) => (.removeDirAll :: acts, r)
        | some e => ([.removeDirAll], .error (.InitializeE (.inl e)))
  | .ok false => GitStore.create_dir_and_clone env
  | .error e => ([], .error (.InitializeE (.inl e)))

/-! Helper lemmas about the association-list map model and the dotted-path
walks; shared by the theorems below. -/

theorem mapGet_mapSet_of_present (m : List (String × Json)) (k : String) (v w : Json)
    (h : mapGet m k = some w) : mapGet (mapSet m k v) k = some v := by
  induction m with
  | nil => simp [mapGet] at h
  | cons p rest ih =>
      obtain ⟨k2, w2⟩ := p
      by_cases hk : k2 = k
      · simp [mapGet, mapSet, hk]
      · simp [mapGet, mapSet, hk] at h ⊢
        exact ih h

theorem mapGet_append_single (m : List (String × Json)) (k : String) (v : Json)
    (h : mapGet m k = none) : mapGet (m ++ [(k, v)]) k = some v := by
  induction m with
  | nil => simp [mapGet]
  | cons p rest ih =>
      obtain ⟨k2, w2⟩ := p
      by_cases hk : k2 = k
      · simp [mapGet, hk] at h
      · simp [mapGet, hk] at h ⊢
        exact ih h

theorem mapGet_mapInsert (m : List (String × Json)) (k : String) (v : Json) :
    mapGet (mapInsert m k v) k = some v := by
  cases h : mapGet m k with
  | some w =>
      simp [mapInsert, h]
      exact mapGet_mapSet_of_present m k v w h
  | none =>
      simp [mapInsert, h]
      exact mapGet_append_single m k v h

theorem mapGet_mapRemove (m : List (String × Json)) (k : String) :
    mapGet (mapRemove m k) k = none := by
  induction m with
  | nil => simp [mapRemove, mapGet]
  | cons p rest ih =>
      obtain ⟨k2, w2⟩ := p
      by_cases hk : k2 = k
      · simp [mapRemove, hk, ih]
      · simp [mapRemove, mapGet, hk, ih]

theorem splitChar_ne_nil (sep : Char) (cs : List Char) : splitChar sep cs ≠ [] := by
  induction cs with
  | nil => simp [splitChar]
  | cons c rest ih =>
      by_cases h : c = sep
      · simp [splitChar, h]
      · simp only [splitChar, h, if_false]
        cases hs : splitChar sep rest with
        | nil => simp
        | cons g gs => simp

theorem splitDots_ne_nil (key : String) : splitDots key ≠ [] := by
  simp [splitDots]
  exact splitChar_ne_nil '.' key.toList

theorem getPath_cons_of_not_obj (v : Json) (k : String) (rest : List String)
    (h : v.isObj = false) : getPath v (k :: rest) = none := by
  cases v <;> simp [Json.isObj] at h ⊢ <;> rfl

theorem updateSegs_getPath (segs : List String) (m : List (String × Json)) (v : Json)
    (hne : segs ≠ []) : getPath (.obj (updateSegs m segs v)) segs = some v := by
  induction segs generalizing m with
  | nil => exact absurd rfl hne
  | cons k rest ih =>
      cases rest with
      | nil =>
          cases h : mapGet m k with
          | some w =>
              simp [updateSegs, h, getPath, mapGet_mapSet_of_present m k v w h]
          | none =>
              simp [updateSegs, h, getPath, mapGet_mapInsert m k v]
      | cons k2 rest2 =>
          cases h : mapGet m k with
          | some w =>
              cases w with
              | obj inner =>
                  have hset := mapGet_mapSet_of_present m k
                    (Json.obj (updateSegs inner (k2 :: rest2) v)) _ h
                  simp only [updateSegs, h, getPath, hset]
                  exact ih inner (by simp)
              | null =>
                  have hset := mapGet_mapSet_of_present m k
                    (Json.obj (updateSegs [] (k2 :: rest2) v)) _ h
                  simp only [updateSegs, h, getPath, hset]
                  exact ih [] (by simp)
              | bool b =>
                  have hset := mapGet_mapSet_of_present m k
                    (Json.obj (updateSegs [] (k2 :: rest2) v)) _ h
                  simp only [updateSegs, h, getPath, hset]
                  exact ih [] (by simp)
              | num x =>
                  have hset := mapGet_mapSet_of_present m k
                    (Json.obj (updateSegs [] (k2 :: rest2) v)) _ h
                  simp only [updateSegs, h, getPath, hset]
                  exact ih [] (by simp)
              | str s =>
                  have hset := mapGet_mapSet_of_present m k
                    (Json.obj (updateSegs [] (k2 :: rest2) v)) _ h
                  simp only [updateSegs, h, getPath, hset]
                  exact ih [] (by simp)
              | arr items =>
                  have hset := mapGet_mapSet_of_present m k
                    (Json.obj (updateSegs [] (k2 :: rest2) v)) _ h
                  simp only [updateSegs, h, getPath, hset]
                  exact ih [] (by simp)
          | none =>
              have hins := mapGet_mapInsert m k (Json.obj (updateSegs [] (k2 :: rest2) v))
              simp only [updateSegs, h, getPath, hins]
              exact ih [] (by simp)

theorem deleteSegs_of_getPath_none (segs : List String) (m : List (String × Json))
    (hne : segs ≠ []) (h : getPath (.obj m) segs = none) :
    deleteSegs m segs = none := by
  induction segs generalizing m with
  | nil => exact absurd rfl hne
  | cons k rest ih =>
      cases rest with
      | nil =>
          cases hg : mapGet m k with
          | some w => simp [getPath, hg] at h
          | none => simp [deleteSegs, hg]
      | cons k2 rest2 =>
          cases hg : mapGet m k with
          | some w =>
              cases w with
              | obj inner =>
                  simp only [getPath, hg] at h
                  simp only [deleteSegs, hg, ih inner (by simp) h]
              | null => simp [deleteSegs, hg]
              | bool b => simp [deleteSegs, hg]
              | num x => simp [deleteSegs, hg]
              | str s => simp [deleteSegs, hg]
              | arr items => simp [deleteSegs, hg]
          | none => simp [deleteSegs, hg]

theorem deleteSegs_of_getPath_some (segs : List String) (m : List (String × Json))
    (w : Json) (hne : segs ≠ []) (h : getPath (.obj m) segs = some w) :
    ∃ m2, deleteSegs m segs = some m2 ∧ getPath (.obj m2) segs = none := by
  induction segs generalizing m w with
  | nil => exact absurd rfl hne
  | cons k rest ih =>
      cases rest with
      | nil =>
          cases hg : mapGet m k with
          | some w2 =>
              refine ⟨mapRemove m k, by simp [deleteSegs, hg], ?_⟩
              simp [getPath, mapGet_mapRemove m k]
          | none => simp [getPath, hg] at h
      | cons k2 rest2 =>
          cases hg : mapGet m k with
          | some v =>
              cases v with
              | obj inner =>
                  simp only [getPath, hg] at h
                  obtain ⟨inner2, hdel, hnone⟩ := ih inner w (by simp) h
                  have hset := mapGet_mapSet_of_present m k (Json.obj inner2) _ hg
                  refine ⟨mapSet m k (Json.obj inner2), ?_, ?_⟩
                  · simp [deleteSegs, hg, hdel]
                  · simp only [getPath, hset]
                    exact hnone
              | null => simp [getPath, hg] at h
              | bool b => simp [getPath, hg] at h
              | num x => simp [getPath, hg] at h
              | str s => simp [getPath, hg] at h
              | arr items => simp [getPath, hg] at h
          | none => simp [getPath, hg] at h

/-! Claim theorems. -/

/-- C1, counterexample: the claim states that evaluating Gt over a String
term and a Number term always yields false; the derived PartialOrd of
QueryLiteral orders different variants by declaration order, so Gt of a
String term over a Number term evaluates to true. -/
theorem c1_cross_variant_gt_true :
    (Clause.Gt (.Literal (.String "a")) (.Literal (.Number ⟨.PosInt 5⟩))).evaluate = true :=
  rfl

/-- C1, amended: over two literal terms of different QueryLiteral variants,
Eq evaluates to false and Ne to true (derived PartialEq never equates
different variants), while the ordering comparisons Ge/Gt/Le/Lt follow the
derived variant declaration order Null before Bool before Number before
String, yielding true or false per that order (never an error) rather than
always false. -/
theorem c1_cross_variant_eval (la lb : QueryLiteral) (h : la.disc ≠ lb.disc) :
    (Clause.Eq (.Literal la) (.Literal lb)).evaluate = false
    ∧ (Clause.Ne (.Literal la) (.Literal lb)).evaluate = true
    ∧ (Clause.Gt (.Literal la) (.Literal lb)).evaluate = decide (lb.disc < la.disc)
    ∧ (Clause.Ge (.Literal la) (.Literal lb)).evaluate = decide (lb.disc < la.disc)
    ∧ (Clause.Lt (.Literal la) (.Literal lb)).evaluate = decide (la.disc < lb.disc)
    ∧ (Clause.Le (.Literal la) (.Literal lb)).evaluate = decide (la.disc < lb.disc) := by
  cases la <;> cases lb <;>
    first
      | exact absurd rfl h
      | exact ⟨rfl, rfl, rfl, rfl, rfl, rfl⟩

/-- C1, witness: the amended theorem applied to the String term "a" and the
Number term 5. -/
theorem c1_cross_variant_eval_witness :
    (Clause.Eq (.Literal (.String "a")) (.Literal (.Number ⟨.PosInt 5⟩))).evaluate = false
    ∧ (Clause.Ne (.Literal (.String "a")) (.Literal (.Number ⟨.PosInt 5⟩))).evaluate = true
    ∧ (Clause.Gt (.Literal (.String "a")) (.Literal (.Number ⟨.PosInt 5⟩))).evaluate
        = decide ((QueryLiteral.Number ⟨.PosInt 5⟩).disc < (QueryLiteral.String "a").disc)
    ∧ (Clause.Ge (.Literal (.String "a")) (.Literal (.Number ⟨.PosInt 5⟩))).evaluate
        = decide ((QueryLiteral.Number ⟨.PosInt 5⟩).disc < (QueryLiteral.String "a").disc)
    ∧ (Clause.Lt (.Literal (.String "a")) (.Literal (.Number ⟨.PosInt 5⟩))).evaluate
        = decide ((QueryLiteral.String "a").disc < (QueryLiteral.Number ⟨.PosInt 5⟩).disc)
    ∧ (Clause.Le (.Literal (.String "a")) (.Literal (.Number ⟨.PosInt 5⟩))).evaluate
        = decide ((QueryLiteral.String "a").disc < (QueryLiteral.Number ⟨.PosInt 5⟩).disc) :=
  c1_cross_variant_eval (.String "a") (.Number ⟨.PosInt 5⟩) (by decide)

/-- C2: the claim states read never panics, including on a file whose
content is not valid JSON; the source unwraps the parse result, so whenever
the file reads successfully but its content fails to parse, read panics. -/
theorem c2_read_panics_on_invalid_json (parse : String → Option Json) (s : String)
    (h : parse s = none) :
    JsonDocument.read parse (.ok s) = .panicked := by
  simp [JsonDocument.read, h]

/-- C2, witness: a parser rejecting the non-JSON content appearing in the
file makes read panic. -/
theorem c2_read_panics_witness :
    JsonDocument.read (fun _ => none) (.ok "\x7b") = .panicked :=
  c2_read_panics_on_invalid_json (fun _ => none) "\x7b" rfl

/-- C3, counterexample: with a configured token "t" the source emits the
Bearer header with two spaces before the token, not the claimed single
space. -/
theorem c3_bearer_double_space :
    build_auth_header ⟨none, none, some "t", false⟩ = some "Authorization: Bearer  t"
    ∧ build_auth_header ⟨none, none, some "t", false⟩ ≠ some "Authorization: Bearer t" :=
  ⟨rfl, by decide⟩

/-- C3, amended: if a bearer token is configured the header is exactly
"Authorization: Bearer" followed by two spaces and the token; else if both
username and password are configured it is exactly "Authorization: Basic "
followed by the standard base64 of username:password; else no header. -/
theorem c3_build_auth_header (auth : GitAuth) :
    (∀ t, auth.token = some t →
        build_auth_header auth = some ("Authorization: Bearer  " ++ t))
    ∧ (auth.token = none → ∀ u p, auth.user = some u → auth.password = some p →
        build_auth_header auth = some ("Authorization: Basic " ++ base64Encode (u ++ ":" ++ p)))
    ∧ (auth.token = none → (auth.user = none ∨ auth.password = none) →
        build_auth_header auth = none) := by
  obtain ⟨u, p, t, ins⟩ := auth
  refine ⟨?_, ?_, ?_⟩
  · intro tok htok
    cases htok
    rfl
  · intro htok u2 p2 hu hp
    cases htok
    cases hu
    cases hp
    rfl
  · intro htok hnone
    cases htok
    rcases hnone with hu | hp
    · cases hu
      rfl
    · cases hp
      cases u with
      | none => rfl
      | some u2 => rfl

/-- C3, witness: the amended theorem applied to a token-only auth, a
user-and-password auth, and a password-only auth. -/
theorem c3_build_auth_header_witness :
    build_auth_header ⟨none, none, some "t", false⟩
        = some ("Authorization: Bearer  " ++ "t")
    ∧ build_auth_header ⟨some "u", some "p", none, false⟩
        = some ("Authorization: Basic " ++ base64Encode ("u" ++ ":" ++ "p"))
    ∧ build_auth_header ⟨none, some "p", none, false⟩ = none :=
  ⟨(c3_build_auth_header _).1 "t" rfl,
   (c3_build_auth_header _).2.1 rfl "u" "p" rfl rfl,
   (c3_build_auth_header _).2.2 rfl (Or.inl rfl)⟩

/-- C4: the claim states delete wraps its failing read or write into
DeleteError; the source wraps both into UpdateError. Evaluating delete at a
missing file shows the read failure surfacing as UpdateError wrapping the
ReadError, and evaluating it at a readable file whose write fails shows the
write failure surfacing as UpdateError wrapping the WriteError. -/
theorem c4_delete_wraps_into_update_error :
    JsonDocument.delete (fun _ => none) ⟨.error ⟨"missing"⟩, none⟩ "a"
        = .err (.UpdateError (.inr (.ReadError (.inl ⟨"missing"⟩))))
    ∧ JsonDocument.delete (fun _ => some (.obj [])) ⟨.ok "{}", some ⟨"disk full"⟩⟩ "a"
        = .err (.UpdateError (.inr (.WriteError (.inl ⟨"disk full"⟩)))) :=
  ⟨rfl, rfl⟩

/-- C5: update_json_value walks the split dotted path through the root
object, materializing objects at non-final segments, and sets the final
segment's key to the new value, so looking the full path up in the result
yields the new value (the lookup succeeding through every prefix also
witnesses that each non-final segment holds an object); a non-object root is
returned unchanged; and the claim's example rewrites the non-object
intermediate: update of a-dot-b to 5 in the object mapping "a" to 1 yields
"a" mapped to the object mapping "b" to 5. -/
theorem c5_update_json_value (data : Json) (key : String) (v : Json) :
    (∀ m, data = Json.obj m →
        getPath (update_json_value data key v) (splitDots key) = some v)
    ∧ (data.isObj = false → update_json_value data key v = data)
    ∧ update_json_value (.obj [("a", .num ⟨.PosInt 1⟩)]) "a.b" (.num ⟨.PosInt 5⟩)
        = .obj [("a", .obj [("b", .num ⟨.PosInt 5⟩)])] := by
  refine ⟨?_, ?_, rfl⟩
  · intro m hm
    cases hm
    simp only [update_json_value]
    exact updateSegs_getPath (splitDots key) m v (splitDots_ne_nil key)
  · intro hobj
    cases data <;> simp [Json.isObj] at hobj ⊢ <;> rfl

/-- C5, witness: the theorem applied to the object mapping "a" to 1, the
path a-dot-b and the value 5: the full-path lookup of the result yields 5,
and a non-object root (the number 7) is returned unchanged. -/
theorem c5_update_json_value_witness :
    getPath (update_json_value (.obj [("a", .num ⟨.PosInt 1⟩)]) "a.b" (.num ⟨.PosInt 5⟩))
        (splitDots "a.b") = some (.num ⟨.PosInt 5⟩)
    ∧ update_json_value (.num ⟨.PosInt 7⟩) "a.b" (.num ⟨.PosInt 5⟩)
        = .num ⟨.PosInt 7⟩ :=
  ⟨(c5_update_json_value (.obj [("a", .num ⟨.PosInt 1⟩)]) "a.b" (.num ⟨.PosInt 5⟩)).1
      [("a", .num ⟨.PosInt 1⟩)] rfl,
   (c5_update_json_value (.num ⟨.PosInt 7⟩) "a.b" (.num ⟨.PosInt 5⟩)).2.1 rfl⟩

/-- C6: delete_json_key removes the final segment's key exactly when the
whole split path resolves (every segment present, every non-final segment an
object, captured by getPath succeeding); when the path resolves the result
no longer resolves the path, and when it does not resolve the document is
returned unmodified; the claim's two examples evaluate as stated. -/
theorem c6_delete_json_key (data : Json) (key : String) :
    (getPath data (splitDots key) = none → delete_json_key data key = data)
    ∧ (∀ w, getPath data (splitDots key) = some w →
        getPath (delete_json_key data key) (splitDots key) = none)
    ∧ delete_json_key (.obj [("a", .obj [("b", .num ⟨.PosInt 1⟩)])]) "a.b"
        = .obj [("a", .obj [])]
    ∧ delete_json_key (.obj [("a", .num ⟨.PosInt 1⟩)]) "a.b"
        = .obj [("a", .num ⟨.PosInt 1⟩)] := by
  refine ⟨?_, ?_, rfl, rfl⟩
  · intro h
    cases data with
    | obj m =>
        simp only [delete_json_key,
          deleteSegs_of_getPath_none (splitDots key) m (splitDots_ne_nil key) h]
    | null => rfl
    | bool b => rfl
    | num x => rfl
    | str s => rfl
    | arr items => rfl
  · intro w h
    cases data with
    | obj m =>
        obtain ⟨m2, hdel, hnone⟩ :=
          deleteSegs_of_getPath_some (splitDots key) m w (splitDots_ne_nil key) h
        simp only [delete_json_key, hdel]
        exact hnone
    | null =>
        cases hs : splitDots key with
        | nil => exact absurd hs (splitDots_ne_nil key)
        | cons k rest =>
            rw [hs, getPath_cons_of_not_obj Json.null k rest rfl] at h
            exact absurd h (by simp)
    | bool b =>
        cases hs : splitDots key with
        | nil => exact absurd hs (splitDots_ne_nil key)
        | cons k rest =>
            rw [hs, getPath_cons_of_not_obj (Json.bool b) k rest rfl] at h
            exact absurd h (by simp)
    | num x =>
        cases hs : splitDots key with
        | nil => exact absurd hs (splitDots_ne_nil key)
        | cons k rest =>
            rw [hs, getPath_cons_of_not_obj (Json.num x) k rest rfl] at h
            exact absurd h (by simp)
    | str s =>
        cases hs : splitDots key with
        | nil => exact absurd hs (splitDots_ne_nil key)
        | cons k rest =>
            rw [hs, getPath_cons_of_not_obj (Json.str s) k rest rfl] at h
            exact absurd h (by simp)
    | arr items =>
        cases hs : splitDots key with
        | nil => exact absurd hs (splitDots_ne_nil key)
        | cons k rest =>
            rw [hs, getPath_cons_of_not_obj (Json.arr items) k rest rfl] at h
            exact absurd h (by simp)

/-- C6, witness: the theorem applied to the claim's two examples: deleting
a-dot-b from the object where "a" maps to the object mapping "b" to 1 makes
the path unresolvable, and deleting a-dot-b where "a" maps to 1 leaves the
document unchanged. -/
theorem c6_delete_json_key_witness :
    getPath (delete_json_key (.obj [("a", .obj [("b", .num ⟨.PosInt 1⟩)])]) "a.b")
        (splitDots "a.b") = none
    ∧ delete_json_key (.obj [("a", .num ⟨.PosInt 1⟩)]) "a.b"
        = .obj [("a", .num ⟨.PosInt 1⟩)] :=
  ⟨(c6_delete_json_key (.obj [("a", .obj [("b", .num ⟨.PosInt 1⟩)])]) "a.b").2.1
      (.num ⟨.PosInt 1⟩) rfl,
   (c6_delete_json_key (.obj [("a", .num ⟨.PosInt 1⟩)]) "a.b").1 rfl⟩

/-- C7: for every finite double f, Number::from_f64 succeeds and reading the
result back with as_f64 yields exactly f; for every non-finite double,
from_f64 returns no value. -/
theorem c7_from_f64_roundtrip (f : F64) :
    (f.isFinite = true → ∃ x, Number.from_f64 f = some x ∧ x.as_f64 = some f)
    ∧ (f.isFinite = false → Number.from_f64 f = none) := by
  constructor
  · intro h
    exact ⟨⟨.Float f⟩, by simp [Number.from_f64, h], rfl⟩
  · intro h
    simp [Number.from_f64, h]

/-- C7, witness: the theorem applied to the finite double 1 and to NaN. -/
theorem c7_from_f64_roundtrip_witness :
    (∃ x, Number.from_f64 (.finite 1) = some x ∧ x.as_f64 = some (.finite 1))
    ∧ Number.from_f64 .nan = none :=
  ⟨(c7_from_f64_roundtrip (.finite 1)).1 rfl, (c7_from_f64_roundtrip .nan).2 rfl⟩

/-- C8: every Number produced by a public constructor (from_f64, from_f32,
from_i128, from_u128) satisfies the representation invariant: a NegInt
payload is strictly negative and a Float payload is finite. -/
theorem c8_constructor_invariant (x : Number)
    (h : (∃ f, Number.from_f64 f = some x) ∨ (∃ f, Number.from_f32 f = some x)
      ∨ (∃ i, Number.from_i128 i = some x) ∨ (∃ u, Number.from_u128 u = some x)) :
    NumberInv x := by
  rcases h with ⟨f, hf⟩ | ⟨f, hf⟩ | ⟨i, hi⟩ | ⟨u, hu⟩
  · unfold Number.from_f64 at hf
    by_cases hfin : f.isFinite
    · simp [hfin] at hf
      cases hf
      simpa [NumberInv] using hfin
    · simp [hfin] at hf
  · unfold Number.from_f32 at hf
    by_cases hfin : F32.isFinite f
    · simp [hfin] at hf
      cases hf
      simpa [NumberInv, F32.toF64] using hfin
    · simp [hfin] at hf
  · unfold Number.from_i128 at hi
    by_cases h1 : 0 ≤ i ∧ i < 2 ^ 64
    · rw [if_pos h1] at hi
      cases hi
      simp [NumberInv]
    · rw [if_neg h1] at hi
      by_cases h2 : -(2 ^ 63) ≤ i ∧ i < 2 ^ 63
      · rw [if_pos h2] at hi
        cases hi
        simp only [NumberInv]
        omega
      · rw [if_neg h2] at hi
        exact absurd hi (by simp)
  · unfold Number.from_u128 at hu
    by_cases h1 : u < 2 ^ 64
    · rw [if_pos h1] at hu
      cases hu
      simp [NumberInv]
    · rw [if_neg h1] at hu
      exact absurd hu (by simp)

/-- C8, witness: the invariant holds of the Number that from_i128 builds
from -5 (a NegInt payload). -/
theorem c8_constructor_invariant_witness :
    NumberInv ⟨.NegInt (-5)⟩ :=
  c8_constructor_invariant ⟨.NegInt (-5)⟩
    (Or.inr (Or.inr (Or.inl ⟨-5, by decide⟩)))

/-- C9: when the working directory exists and the inside-a-work-tree probe
reports validity, initialize returns success with an empty action trace: no
directory removal, no clone, no reconfiguration; being a pure function of
the unchanged environment, a second call returns the same empty-trace
success. -/
theorem c9_initialize_valid_noop (env : StoreEnv)
    (h1 : env.pathExists = .ok true) (h2 : is_valid_repo env = true) :
    GitStore.initializeRepo env = ([], .ok ())
    ∧ (GitStore.initializeRepo env).1 = []
    ∧ (GitStore.initializeRepo env).2 = .ok () := by
  have hmain : GitStore.initializeRepo env = ([], .ok ()) := by
    unfold GitStore.initializeRepo
    rw [h1]
    simp [h2]
  exact ⟨hmain, by rw [hmain], by rw [hmain]⟩

/-- C9, witness: the theorem applied to the environment where the directory
exists and the probe prints "true". -/
theorem c9_initialize_valid_noop_witness :
    GitStore.initializeRepo ⟨.ok true, .ok "true", none, none, none, none⟩
      = ([], .ok ()) :=
  (c9_initialize_valid_noop ⟨.ok true, .ok "true", none, none, none, none⟩ rfl rfl).1

/-- C10: for every environment and query, find_one returns Ok(None) and
find_many returns Ok of the empty vector: the filtered-read operations
consult neither the query nor the file system and never return an error. -/
theorem c10_find_stubs (env env2 : DocEnv) (qry qry2 : RepoQuery) :
    JsonDocument.find_one env qry = .ok none
    ∧ JsonDocument.find_many env qry = .ok []
    ∧ JsonDocument.find_one env qry = JsonDocument.find_one env2 qry2
    ∧ JsonDocument.find_many env qry = JsonDocument.find_many env2 qry2 :=
  ⟨rfl, rfl, rfl, rfl⟩

end Gitobi
